import Mathlib

/-
Verification of scenegen.py (wickerwaka/scenegen) against its specification.

The program is a one-shot pipeline: fetch entity states from a REST endpoint,
resolve an entity filter (from an INI mapfile plus group names, or from a
previously generated scene YAML file), project each entity to a constrained
attribute set, and dump the resulting scene document as YAML.

The embedding below models the pure data transformations of scenegen.py.
Python strings are Lean String values; Python string comparison, substring
tests and str.split are modeled at the character-list level so that every
definition evaluates inside the kernel. Python dicts are association lists in
insertion order (CPython dicts preserve insertion order); dict assignment is
dictInsert. The error() helper (lines 16-19 of scenegen.py) writes a
diagnostic to stderr and calls sys.exit(1); it is modeled by the Fatal record
carried in the error branch of Except. The network fetch (get_states, lines
21-35) is modeled by passing the decoded list of entity states as a
parameter; transport failures and non-200 responses terminate the run before
any of the code verified here executes.

yaml.dump(output, default_flow_style=False) (line 130) is a call into the
pyyaml library: its representer sorts the keys of every mapping (sort_keys
defaults to True) and the emitter writes block style. serializeAST models
the representer stage and dumpText the emitted text for the value shapes a
scene document contains (string scalars, numbers, flat lists, and mappings
of such scalars); yaml.load (line 101) composed with the emitter is the
identity on these values, so source-scene reading is modeled by field access
on the representer output (sceneExtract).
-/

namespace Scenegen

/-! ## Character-level string operations (Python semantics) -/

/-- Lexicographic (code point) comparison of character lists: the order
Python uses to compare strings. -/
def lexLt : List Char → List Char → Bool
  | [], [] => false
  | [], _ :: _ => true
  | _ :: _, [] => false
  | a :: as, b :: bs => a < b || (a == b && lexLt as bs)

/-- Python string less-or-equal, via lexLt. -/
def keyLe (a b : String) : Bool := !(lexLt b.data a.data)

/-- Python substring containment at the character level: needle occurs
contiguously in the haystack. -/
def subOccurs (needle : List Char) : List Char → Bool
  | [] => needle.isEmpty
  | c :: rest => needle.isPrefixOf (c :: rest) || subOccurs needle (rest)

/-- The Python expression needle in haystack on two strings: substring
containment, not membership in a separated list. -/
def pyIn (needle haystack : String) : Bool :=
  subOccurs needle.data haystack.data

/-- Helper for pySplit: consume characters, cutting at every separator.
The accumulator holds the current piece reversed. -/
def splitCharAux (sep : Char) : List Char → List Char → List String
  | [], acc => [String.mk acc.reverse]
  | c :: rest, acc =>
    if c = sep then String.mk acc.reverse :: splitCharAux sep rest []
    else splitCharAux sep rest (c :: acc)

/-- Python str.split with a one-character separator: cuts at every
occurrence and keeps empty pieces. -/
def pySplit (s : String) (sep : Char) : List String :=
  splitCharAux sep s.data []

/-! ## Association lists: Python dicts in insertion order -/

/-- Keys of an association list, in insertion order. -/
def keys {α : Type} (m : List (String × α)) : List String :=
  m.map (fun p => p.1)

/-- Lookup of a key in an association list (Python dict read: keys are
unique, the first binding is the binding). -/
def alook {α : Type} (k : String) : List (String × α) → Option α
  | [] => none
  | p :: ps => if p.1 = k then some p.2 else alook k ps

/-- Python dict assignment d[k] = v: replace in place when the key exists,
append otherwise. -/
def dictInsert {α : Type} (m : List (String × α)) (k : String) (v : α) :
    List (String × α) :=
  if k ∈ keys m then m.map (fun p => if p.1 = k then (k, v) else p)
  else m ++ [(k, v)]

/-! ## Data model -/

/-- A JSON value as found in the attributes mapping of a fetched entity
state (the shapes relevant to scene generation: strings, numbers, lists). -/
inductive JVal where
  | s (v : String)
  | int (n : Int)
  | arr (elems : List JVal)

/-- One record of the JSON array returned by GET /api/states. -/
structure EntityState where
  entity_id : String
  state : String
  attributes : List (String × JVal)

/-- The value stored for an entity in the generated scene: a mapping for
lights, the bare state string for switches (nustate in output_attrs). -/
inductive Projected where
  | mapping (m : List (String × JVal))
  | bare (s : String)

/-- Outcome of error() (scenegen.py lines 16-19): a one-line diagnostic on
stderr and process exit status 1. -/
structure Fatal where
  exitStatus : Nat
  stderr : String

/-- The error helper: error: message plus newline on stderr, sys.exit(1). -/
def errorCall (message : String) : Fatal :=
  { exitStatus := 1, stderr := "error: " ++ message ++ "\n" }

/-- Global constant LIGHT_ATTRS (line 12). -/
def LIGHT_ATTRS : List String := ["transition", "profile", "brightness", "flash"]

/-- Global constant LIGHT_COLOR_TYPES (line 13), in its declared order. -/
def LIGHT_COLOR_TYPES : List String := ["xy_color", "rgb_color", "color_name", "color_temp"]

/-! ## output_attrs (scenegen.py lines 37-65) -/

/-- The expression entity_id.split(.)[0] at line 39: the prefix of the id
before its first dot (the whole id when there is no dot). -/
def deviceType (entity_id : String) : String :=
  String.mk (entity_id.data.takeWhile (fun c => c != '.'))

/-- The loop at lines 47-49: for attr in names, when the attribute is
present in the entity attributes, nustate[attr] = attributes[attr]. -/
def copyAttrs : List String → List (String × JVal) → List (String × JVal) →
    List (String × JVal)
  | [], _, nustate => nustate
  | a :: rest, attrs, nustate =>
    match alook a attrs with
    | some v => copyAttrs rest attrs (dictInsert nustate a v)
    | none => copyAttrs rest attrs nustate

/-- The fallback loop at lines 55-58: scan LIGHT_COLOR_TYPES in order and
copy the first color attribute found, then break. -/
def addFirstColor : List String → List (String × JVal) → List (String × JVal) →
    List (String × JVal)
  | [], _, nustate => nustate
  | c :: rest, attrs, nustate =>
    match alook c attrs with
    | some v => dictInsert nustate c v
    | none => addFirstColor rest attrs nustate

/-- output_attrs (lines 37-65). The membership test at line 43 is the
Python expression device_type in args.types where args.types is the raw
option string, hence a substring test (pyIn). The colortype guard at line
51 is if args.colortype and args.colortype in attributes: a falsy (empty)
colortype skips straight to the fallback scan. -/
def output_attrs (state : EntityState) (types colortype : String) :
    Except Fatal (Option (String × Projected)) :=
  let device_type := deviceType state.entity_id
  if pyIn device_type types then
    if device_type = "light" then
      let nustate := dictInsert ([] : List (String × JVal)) "state" (JVal.s state.state)
      let nustate := copyAttrs LIGHT_ATTRS state.attributes nustate
      let nustate :=
        match (if colortype = "" then none else alook colortype state.attributes) with
        | some v => dictInsert nustate colortype v
        | none => addFirstColor LIGHT_COLOR_TYPES state.attributes nustate
      .ok (some (state.entity_id, .mapping nustate))
    else if device_type = "switch" then
      .ok (some (state.entity_id, .bare state.state))
    else
      .error (errorCall ("Unsupported device type (" ++ device_type ++
        ") detected while trying to process entity " ++ state.entity_id))
  else
    .ok none

/-- The color choice as the spec words it (section 4.3): the preferred
color attribute when present, otherwise the first present entry of
LIGHT_COLOR_TYPES in declared order. Stated from the spec, to be compared
with the behavior of output_attrs. -/
def specPreferredColor (attrs : List (String × JVal)) (preferred : String) :
    Option String :=
  if (alook preferred attrs).isSome then some preferred
  else LIGHT_COLOR_TYPES.find? (fun c => (alook c attrs).isSome)

/-! ## YAML values, the dump of line 130 and the load of line 101 -/

/-- A YAML document node: a scalar or a mapping with string keys (the only
key shape scene documents contain). -/
inductive Yaml where
  | scalar (v : JVal)
  | map (entries : List (String × Yaml))

/-- The generated scene document: output = entities mapping plus name
(line 119), entities in insertion order. -/
structure SceneDoc where
  name : String
  entities : List (String × Projected)

/-- Stable insertion of a pair into a key-sorted list (ordered by keyLe). -/
def insertPair {α : Type} (p : String × α) : List (String × α) → List (String × α)
  | [] => [p]
  | q :: qs => if keyLe p.1 q.1 then p :: q :: qs else q :: insertPair p qs

/-- Sorting of mapping entries by key, as the pyyaml representer does for
every mapping when sort_keys is left at its default True. -/
def sortPairs {α : Type} : List (String × α) → List (String × α)
  | [] => []
  | p :: ps => insertPair p (sortPairs ps)

/-- Relation by which the serializer sorts mapping entries. -/
def pairLe {α : Type} (p q : String × α) : Prop := keyLe p.1 q.1 = true

/-- Representer output for one projected entity value: light mappings have
their keys sorted, switch values are plain scalars. -/
def projToYamlSorted : Projected → Yaml
  | .bare s => .scalar (.s s)
  | .mapping m => .map (sortPairs (m.map (fun p => (p.1, Yaml.scalar p.2))))

/-- The entities mapping as the representer emits it: entries sorted by
key, values represented recursively. -/
def sortedEntities (doc : SceneDoc) : List (String × Yaml) :=
  sortPairs (doc.entities.map (fun p => (p.1, projToYamlSorted p.2)))

/-- The representer stage of yaml.dump at line 130: every mapping of the
document gets its keys sorted. -/
def serializeAST (doc : SceneDoc) : Yaml :=
  .map (sortPairs [("entities", Yaml.map (sortedEntities doc)),
                   ("name", Yaml.scalar (.s doc.name))])

/-- The order in which entity keys appear in the serialized output. -/
def entityKeyOrder (doc : SceneDoc) : List String :=
  (sortedEntities doc).map (fun p => p.1)

/-- Concatenation of a list of strings (the lines of the emitted text). -/
def strConcat : List String → String
  | [] => ""
  | s :: rest => s ++ strConcat rest

/-- Inline text of a scalar. Scene scalars are plain-safe strings and
numbers; a list nested inside a list does not occur in scene documents and
is rendered inline here. -/
def flatScalar : JVal → String
  | .s v => v
  | .int n => toString n
  | .arr vs => "[" ++ String.intercalate ", " (vs.map (fun v => flatScalarItem v)) ++ "]"
where
  flatScalarItem : JVal → String
    | .s v => v
    | .int n => toString n
    | .arr _ => "[]"

/-- Two spaces of indentation per level, as pyyaml emits by default. -/
def indent (n : Nat) : String := String.mk (List.replicate (2 * n) ' ')

/-- One block-style mapping line key: value at the given indentation; a
nonempty list value becomes a block sequence (default_flow_style=False),
an empty list the flow marker. -/
def attrLine (ind : Nat) (k : String) (v : JVal) : String :=
  match v with
  | .arr [] => indent ind ++ k ++ ": []\n"
  | .arr (x :: xs) =>
    indent ind ++ k ++ ":\n" ++
      strConcat ((x :: xs).map (fun e => indent ind ++ "- " ++ flatScalar e ++ "\n"))
  | other => indent ind ++ k ++ ": " ++ flatScalar other ++ "\n"

/-- Block rendering of one entity entry of the sorted entities mapping.
Values produced by the program are scalars (switches) or mappings of
scalars (lights); an empty mapping renders as the flow marker, and the
final catch-all for a deeper mapping is unreachable from serializeAST
output. -/
def entEntry (p : String × Yaml) : String :=
  match p.2 with
  | .scalar v => attrLine 1 p.1 v
  | .map [] => indent 1 ++ p.1 ++ ": \x7b\x7d\n"
  | .map (e :: es) =>
    indent 1 ++ p.1 ++ ":\n" ++
      strConcat ((e :: es).map (fun q =>
        match q.2 with
        | .scalar v => attrLine 2 q.1 v
        | .map [] => indent 2 ++ q.1 ++ ": \x7b\x7d\n"
        | .map (_ :: _) => indent 2 ++ q.1 ++ ":\n"))

/-- Block rendering of the entities field. -/
def dumpEntitiesText (ents : List (String × Yaml)) : String :=
  match ents with
  | [] => "entities: \x7b\x7d\n"
  | _ :: _ => "entities:\n" ++ strConcat (ents.map entEntry)

/-- The emitted text of yaml.dump(output, default_flow_style=False) at
line 130: block style throughout, keys of every mapping sorted. The sorted
top-level key order is entities before name, since keyLe holds between
those two literals. -/
def dumpText (doc : SceneDoc) : String :=
  dumpEntitiesText (sortedEntities doc) ++ "name: " ++ doc.name ++ "\n"

/-- The data access of main lines 99-104 on a loaded source scene: the
scene name from the top-level name field and the filter list from the keys
of the entities mapping. The claims verified here concern scene files with
a string name field, matching the SceneDocument data model. -/
def sceneExtract (y : Yaml) : Option (String × List String) :=
  match y with
  | .map es =>
    match alook "name" es, alook "entities" es with
    | some (.scalar (.s n)), some (.map ents) => some (n, ents.map (fun p => p.1))
    | _, _ => none
  | .scalar _ => none

/-! ## main (scenegen.py lines 67-135) -/

/-- argparse default for --scenename (line 73). -/
def scenenameDefault : String := "My New Scene"

/-- Command-line arguments after argparse, with the two possible input
files already read and parsed: mapfile? carries the path given on the
command line together with the parsed INI sections (section name and that
section's option keys, in file order, as configparser yields them);
sourceScene? carries the parsed YAML of the --source-scene file. none
models an option that was not passed. -/
structure Args where
  scenename? : Option String
  mapfile? : Option (String × List (String × List String))
  filter? : Option String
  sourceScene? : Option Yaml
  types : String := "light,switch"
  colortype : String := "xy_color"

/-- Python truthiness of args.mapfile at line 86: present and not the
empty path string. -/
def mapfileTruthy (args : Args) : Bool :=
  match args.mapfile? with
  | some (path, _) => !(path == "")
  | none => false

/-- Python truthiness of args.filter at line 86. -/
def filterTruthy (args : Args) : Bool :=
  match args.filter? with
  | some f => !(f == "")
  | none => false

/-- Filter resolution, main lines 84-104. With both a truthy mapfile and a
truthy filter: split the filter string on commas, collect the option keys
of every section whose name is one of the filters, and fail via error()
when the collected list is empty. Otherwise, with a source scene given:
take the scene name from the file when the command-line name equals the
argparse default, and the filter list from the entities keys (a malformed
scene file raises an uncaught exception, which also ends the process with
status 1). Otherwise the filter list stays empty. -/
def resolveFilter (args : Args) : Except Fatal (List String × String) :=
  let scenename := args.scenename?.getD scenenameDefault
  if mapfileTruthy args && filterTruthy args then
    let fstr := args.filter?.getD ""
    let path := (args.mapfile?.map (fun m => m.1)).getD ""
    let sections := (args.mapfile?.map (fun m => m.2)).getD []
    let filters := pySplit fstr ','
    let filter_list := sections.foldl
      (fun acc s => if s.1 ∈ filters then acc ++ s.2 else acc) []
    if filter_list = [] then
      .error (errorCall ("No entities found in mapfile " ++ path ++
        ", sections " ++ fstr))
    else
      .ok (filter_list, scenename)
  else
    match args.sourceScene? with
    | some y =>
      match sceneExtract y with
      | some (n, ks) => .ok (ks, if scenename == scenenameDefault then n else scenename)
      | none => .error { exitStatus := 1, stderr := "Traceback (uncaught exception)\n" }
    | none => .ok ([], scenename)

/-- The assembly loop of main, lines 120-127: skip entities outside a
nonempty filter list, project the rest, propagate a fatal error from the
projector, and insert each nonempty projection into the entities dict. -/
def assembleLoop (types colortype : String) (fl : List String) :
    List EntityState → List (String × Projected) →
    Except Fatal (List (String × Projected))
  | [], acc => .ok acc
  | st :: rest, acc =>
    if fl ≠ [] ∧ st.entity_id ∉ fl then
      assembleLoop types colortype fl rest acc
    else
      match output_attrs st types colortype with
      | .error f => .error f
      | .ok none => assembleLoop types colortype fl rest acc
      | .ok (some (k, v)) => assembleLoop types colortype fl rest (dictInsert acc k v)

/-- The run of main after the HTTP fetch: resolve the filter and the scene
name, then assemble the scene document (lines 84-127). The states
parameter is the decoded JSON array returned by get_states. -/
def runMain (args : Args) (states : List EntityState) : Except Fatal SceneDoc :=
  match resolveFilter args with
  | .error f => .error f
  | .ok (fl, sn) =>
    match assembleLoop args.types args.colortype fl states [] with
    | .error f => .error f
    | .ok ents => .ok { name := sn, entities := ents }

/-- Process exit status of a run: 0 on success, the recorded status of the
fatal error otherwise. -/
def exitCode (r : Except Fatal SceneDoc) : Nat :=
  match r with
  | .ok _ => 0
  | .error f => f.exitStatus


/-! ## Lemmas: ordering and sorting -/

theorem lexLt_asymm : ∀ a b : List Char, lexLt a b = true → lexLt b a = false
  | [], [], h => by simp [lexLt] at h
  | [], _ :: _, _ => by simp [lexLt]
  | _ :: _, [], h => by simp [lexLt] at h
  | a :: as, b :: bs, h => by
    simp only [lexLt, Bool.or_eq_true, Bool.and_eq_true, decide_eq_true_eq] at h
    simp only [lexLt, Bool.or_eq_false_iff, Bool.and_eq_false_iff, decide_eq_false_iff_not]
    rcases h with h | ⟨hab, h⟩
    · exact ⟨not_lt_of_lt h, Or.inl (beq_eq_false_iff_ne.mpr (ne_of_gt h))⟩
    · have hab2 : a = b := eq_of_beq hab
      subst hab2
      exact ⟨lt_irrefl a, Or.inr (lexLt_asymm as bs h)⟩

theorem lexLt_trans : ∀ a b c : List Char, lexLt a b = true → lexLt b c = true → lexLt a c = true
  | [], b, [], _, h2 => by cases b <;> simp [lexLt] at h2
  | [], _, _ :: _, _, _ => by simp [lexLt]
  | _ :: _, [], _, h1, _ => by simp [lexLt] at h1
  | _ :: _, _ :: _, [], _, h2 => by simp [lexLt] at h2
  | a :: as, b :: bs, c :: cs, h1, h2 => by
    simp only [lexLt, Bool.or_eq_true, Bool.and_eq_true, decide_eq_true_eq] at h1 h2 ⊢
    rcases h1 with h1 | ⟨hab, h1⟩
    · rcases h2 with h2 | ⟨hbc, h2⟩
      · exact Or.inl (lt_trans h1 h2)
      · have hbc2 : b = c := eq_of_beq hbc
        subst hbc2
        exact Or.inl h1
    · have hab2 : a = b := eq_of_beq hab
      subst hab2
      rcases h2 with h2 | ⟨hbc, h2⟩
      · exact Or.inl h2
      · have hbc2 : a = c := eq_of_beq hbc
        subst hbc2
        exact Or.inr ⟨by simp, lexLt_trans as bs cs h1 h2⟩

theorem lexLt_conn : ∀ a b : List Char, lexLt a b = false → lexLt b a = false → a = b
  | [], [], _, _ => rfl
  | [], _ :: _, h1, _ => by simp [lexLt] at h1
  | _ :: _, [], _, h2 => by simp [lexLt] at h2
  | a :: as, b :: bs, h1, h2 => by
    simp only [lexLt, Bool.or_eq_false_iff, Bool.and_eq_false_iff,
      decide_eq_false_iff_not] at h1 h2
    obtain ⟨hab, h1r⟩ := h1
    obtain ⟨hba, h2r⟩ := h2
    have heq : a = b := le_antisymm (not_lt.mp hba) (not_lt.mp hab)
    subst heq
    rcases h1r with h | h1r
    · simp at h
    rcases h2r with h | h2r
    · simp at h
    rw [lexLt_conn as bs h1r h2r]

theorem keyLe_total {a b : String} (h : keyLe a b = false) : keyLe b a = true := by
  unfold keyLe at h ⊢
  cases hba : lexLt b.data a.data with
  | false => rw [hba] at h; exact absurd h (by decide)
  | true => rw [lexLt_asymm _ _ hba]; rfl

theorem keyLe_trans {a b c : String} (h1 : keyLe a b = true) (h2 : keyLe b c = true) :
    keyLe a c = true := by
  unfold keyLe at h1 h2 ⊢
  have h1f : lexLt b.data a.data = false := by
    cases hx : lexLt b.data a.data
    · rfl
    · rw [hx] at h1; exact absurd h1 (by decide)
  have h2f : lexLt c.data b.data = false := by
    cases hx : lexLt c.data b.data
    · rfl
    · rw [hx] at h2; exact absurd h2 (by decide)
  have hca : lexLt c.data a.data = false := by
    cases hbc : lexLt b.data c.data
    · have heq : b.data = c.data := lexLt_conn _ _ hbc h2f
      rw [← heq]
      exact h1f
    · cases hx : lexLt c.data a.data
      · rfl
      · have hba : lexLt b.data a.data = true := lexLt_trans _ _ _ hbc hx
        rw [hba] at h1f
        cases h1f
  rw [hca]
  rfl


theorem perm_insertPair {α : Type} (p : String × α) (l : List (String × α)) :
    List.Perm (insertPair p l) (p :: l) := by
  induction l with
  | nil => exact List.Perm.refl _
  | cons q qs ih =>
    unfold insertPair
    split
    · exact List.Perm.refl _
    · exact (List.Perm.cons q ih).trans (List.Perm.swap p q qs)

theorem perm_sortPairs {α : Type} (l : List (String × α)) : List.Perm (sortPairs l) l := by
  induction l with
  | nil => exact List.Perm.refl _
  | cons p ps ih =>
    unfold sortPairs
    exact (perm_insertPair p (sortPairs ps)).trans (ih.cons p)

theorem sorted_insertPair {α : Type} (p : String × α) (l : List (String × α))
    (h : List.Pairwise pairLe l) : List.Pairwise pairLe (insertPair p l) := by
  induction l with
  | nil => simp [insertPair, pairLe]
  | cons q qs ih =>
    unfold insertPair
    split
    case isTrue hle =>
      refine List.Pairwise.cons ?_ h
      intro r hr
      rcases List.mem_cons.mp hr with rfl | hr
      · exact hle
      · exact keyLe_trans hle (List.rel_of_pairwise_cons h hr)
    case isFalse hle =>
      have hqp : keyLe q.1 p.1 = true := keyLe_total (Bool.eq_false_iff.mpr hle)
      refine List.Pairwise.cons ?_ (ih (List.Pairwise.sublist (List.sublist_cons_self q qs) h))
      intro r hr
      have hr2 : r = p ∨ r ∈ qs := by
        have hmem := (perm_insertPair p qs).mem_iff.mp hr
        simpa using hmem
      rcases hr2 with rfl | hr2
      · exact hqp
      · exact List.rel_of_pairwise_cons h hr2

theorem sorted_sortPairs {α : Type} (l : List (String × α)) :
    List.Pairwise pairLe (sortPairs l) := by
  induction l with
  | nil => simp [sortPairs]
  | cons p ps ih => exact sorted_insertPair p (sortPairs ps) ih


/-! ## Lemmas: association lists -/

theorem alook_eq_none_of_not_mem {α : Type} {k : String} :
    ∀ {m : List (String × α)}, k ∉ keys m → alook k m = none
  | [], _ => rfl
  | p :: ps, h => by
    have hne : p.1 ≠ k := by
      intro he
      exact h (by simp [keys, he])
    have hps : k ∉ keys ps := by
      intro hk
      exact h (by simp [keys] at hk ⊢; exact Or.inr hk)
    simp [alook, hne, alook_eq_none_of_not_mem hps]

theorem alook_map_replace {α : Type} {k : String} {v : α} :
    ∀ {m : List (String × α)}, k ∈ keys m →
      alook k (m.map (fun p => if p.1 = k then (k, v) else p)) = some v
  | [], h => by simp [keys] at h
  | p :: ps, h => by
    by_cases hp : p.1 = k
    · simp [alook, hp]
    · have hps : k ∈ keys ps := by
        have h2 : k = p.1 ∨ k ∈ keys ps := List.mem_cons.mp h
        exact h2.resolve_left (fun he => hp he.symm)
      simp [alook, hp, alook_map_replace hps]

theorem alook_append_single_self {α : Type} {k : String} {v : α} :
    ∀ (m : List (String × α)), k ∉ keys m → alook k (m ++ [(k, v)]) = some v
  | [], _ => by simp [alook]
  | p :: ps, h => by
    have hne : p.1 ≠ k := by
      intro he
      exact h (by simp [keys, he])
    have hps : k ∉ keys ps := by
      intro hk
      exact h (by simp [keys] at hk ⊢; exact Or.inr hk)
    simp [alook, hne, alook_append_single_self ps hps]

theorem alook_dictInsert_self {α : Type} (m : List (String × α)) (k : String) (v : α) :
    alook k (dictInsert m k v) = some v := by
  unfold dictInsert
  split
  case isTrue h => exact alook_map_replace h
  case isFalse h => exact alook_append_single_self m h

theorem alook_map_replace_ne {α : Type} {k k2 : String} {v : α} (h : k2 ≠ k) :
    ∀ (m : List (String × α)),
      alook k2 (m.map (fun p => if p.1 = k then (k, v) else p)) = alook k2 m
  | [] => rfl
  | p :: ps => by
    by_cases hp : p.1 = k
    · have h1 : k ≠ k2 := fun he => h he.symm
      have h2 : p.1 ≠ k2 := hp ▸ h1
      simp only [List.map_cons, if_pos hp, alook, if_neg h1, if_neg h2]
      exact alook_map_replace_ne h ps
    · simp only [List.map_cons, if_neg hp, alook]
      split
      · rfl
      · exact alook_map_replace_ne h ps

theorem alook_append_single_ne {α : Type} {k k2 : String} {v : α} (h : k2 ≠ k) :
    ∀ (m : List (String × α)), alook k2 (m ++ [(k, v)]) = alook k2 m
  | [] => by
    have h1 : k ≠ k2 := fun he => h he.symm
    simp [alook, h1]
  | p :: ps => by
    simp only [List.cons_append, alook]
    split
    · rfl
    · exact alook_append_single_ne h ps

theorem alook_dictInsert_ne {α : Type} (m : List (String × α)) {k k2 : String} (v : α)
    (h : k2 ≠ k) : alook k2 (dictInsert m k v) = alook k2 m := by
  unfold dictInsert
  split
  · exact alook_map_replace_ne h m
  · exact alook_append_single_ne h m

theorem keys_dictInsert {α : Type} (m : List (String × α)) (k : String) (v : α) :
    keys (dictInsert m k v) = if k ∈ keys m then keys m else keys m ++ [k] := by
  unfold dictInsert
  split
  case isTrue h =>
    simp only [if_pos h, keys, List.map_map]
    congr 1
    funext p
    by_cases hp : p.1 = k
    · simp [hp]
    · simp [hp]
  case isFalse h =>
    simp [if_neg h, keys]

theorem mem_keys_dictInsert_self {α : Type} (m : List (String × α)) (k : String) (v : α) :
    k ∈ keys (dictInsert m k v) := by
  rw [keys_dictInsert]
  split
  case isTrue h => exact h
  case isFalse h => simp

theorem mem_keys_dictInsert_of_mem {α : Type} {m : List (String × α)} {x : String}
    (k : String) (v : α) (h : x ∈ keys m) : x ∈ keys (dictInsert m k v) := by
  rw [keys_dictInsert]
  split
  · exact h
  · simp [h]

theorem mem_keys_dictInsert_cases {α : Type} {m : List (String × α)} {x k : String} {v : α}
    (h : x ∈ keys (dictInsert m k v)) : x ∈ keys m ∨ x = k := by
  rw [keys_dictInsert] at h
  by_cases hk : k ∈ keys m
  · rw [if_pos hk] at h
    exact Or.inl h
  · rw [if_neg hk] at h
    simpa using h


/-! ## Lemmas: the attribute copy loops -/

theorem copyAttrs_alook_not_mem {k : String} :
    ∀ (names : List String) (attrs nu : List (String × JVal)), k ∉ names →
      alook k (copyAttrs names attrs nu) = alook k nu
  | [], _, _, _ => rfl
  | a :: rest, attrs, nu, h => by
    have hka : k ≠ a := fun he => h (he ▸ List.mem_cons_self a rest)
    have hrest : k ∉ rest := fun hr => h (List.mem_cons_of_mem a hr)
    unfold copyAttrs
    cases alook a attrs with
    | none => exact copyAttrs_alook_not_mem rest attrs nu hrest
    | some v =>
      rw [copyAttrs_alook_not_mem rest attrs _ hrest]
      exact alook_dictInsert_ne nu v hka

theorem copyAttrs_alook_mem {k : String} :
    ∀ (names : List String) (attrs nu : List (String × JVal)),
      names.Nodup → k ∈ names →
      alook k (copyAttrs names attrs nu) = (alook k attrs).or (alook k nu)
  | [], _, _, _, hk => absurd hk (List.not_mem_nil k)
  | a :: rest, attrs, nu, hnd, hk => by
    by_cases hka : k = a
    · subst hka
      have hkrest : k ∉ rest := (List.nodup_cons.mp hnd).1
      unfold copyAttrs
      cases hv : alook k attrs with
      | none =>
        rw [copyAttrs_alook_not_mem rest attrs nu hkrest]
        simp [Option.or]
      | some v =>
        rw [copyAttrs_alook_not_mem rest attrs _ hkrest]
        rw [alook_dictInsert_self]
        simp [Option.or]
    · have hkrest : k ∈ rest := (List.mem_cons.mp hk).resolve_left hka
      unfold copyAttrs
      cases hv : alook a attrs with
      | none => exact copyAttrs_alook_mem rest attrs nu (List.nodup_cons.mp hnd).2 hkrest
      | some v =>
        rw [copyAttrs_alook_mem rest attrs _ (List.nodup_cons.mp hnd).2 hkrest]
        rw [alook_dictInsert_ne nu v hka]

theorem addFirstColor_alook (k : String) :
    ∀ (scan : List String) (attrs nu : List (String × JVal)),
      alook k (addFirstColor scan attrs nu) =
        match scan.find? (fun c => (alook c attrs).isSome) with
        | some c0 => if k = c0 then alook c0 attrs else alook k nu
        | none => alook k nu
  | [], _, _ => rfl
  | c :: rest, attrs, nu => by
    unfold addFirstColor
    cases hv : alook c attrs with
    | some v =>
      have hfind : (c :: rest).find? (fun c => (alook c attrs).isSome) = some c := by
        rw [List.find?_cons_of_pos]
        simp [hv]
      rw [hfind]
      by_cases hk : k = c
      · subst hk
        simp [alook_dictInsert_self, hv]
      · simp only [if_neg hk]
        exact alook_dictInsert_ne nu v hk
    | none =>
      have hfind : (c :: rest).find? (fun c => (alook c attrs).isSome) =
          rest.find? (fun c => (alook c attrs).isSome) := by
        rw [List.find?_cons_of_neg]
        simp [hv]
      rw [hfind]
      exact addFirstColor_alook k rest attrs nu


/-! ## Lemmas: the projector -/

theorem output_attrs_ok_some {st : EntityState} {types ct k : String} {pr : Projected}
    (h : output_attrs st types ct = .ok (some (k, pr))) :
    k = st.entity_id ∧ pyIn (deviceType st.entity_id) types = true ∧
      (deviceType st.entity_id = "light" ∨ deviceType st.entity_id = "switch") := by
  simp only [output_attrs] at h
  by_cases hin : pyIn (deviceType st.entity_id) types = true
  · rw [if_pos hin] at h
    by_cases hl : deviceType st.entity_id = "light"
    · rw [if_pos hl] at h
      simp only [Except.ok.injEq, Option.some.injEq, Prod.mk.injEq] at h
      exact ⟨h.1.symm, hin, Or.inl hl⟩
    · rw [if_neg hl] at h
      by_cases hs : deviceType st.entity_id = "switch"
      · rw [if_pos hs] at h
        simp only [Except.ok.injEq, Option.some.injEq, Prod.mk.injEq] at h
        exact ⟨h.1.symm, hin, Or.inr hs⟩
      · rw [if_neg hs] at h
        simp at h
  · rw [if_neg hin] at h
    simp at h

theorem output_attrs_ok_none {st : EntityState} {types ct : String}
    (h : output_attrs st types ct = .ok none) :
    pyIn (deviceType st.entity_id) types = false := by
  simp only [output_attrs] at h
  by_cases hin : pyIn (deviceType st.entity_id) types = true
  · rw [if_pos hin] at h
    by_cases hl : deviceType st.entity_id = "light"
    · rw [if_pos hl] at h
      simp at h
    · rw [if_neg hl] at h
      by_cases hs : deviceType st.entity_id = "switch"
      · rw [if_pos hs] at h
        simp at h
      · rw [if_neg hs] at h
        simp at h
  · simpa using hin

theorem output_attrs_error_exit {st : EntityState} {types ct : String} {f : Fatal}
    (h : output_attrs st types ct = .error f) : f.exitStatus = 1 := by
  simp only [output_attrs] at h
  by_cases hin : pyIn (deviceType st.entity_id) types = true
  · rw [if_pos hin] at h
    by_cases hl : deviceType st.entity_id = "light"
    · rw [if_pos hl] at h
      simp at h
    · rw [if_neg hl] at h
      by_cases hs : deviceType st.entity_id = "switch"
      · rw [if_pos hs] at h
        simp at h
      · rw [if_neg hs] at h
        simp only [Except.error.injEq] at h
        rw [← h]
        rfl
  · rw [if_neg hin] at h
    simp at h

theorem output_attrs_unsupported {st : EntityState} {types : String} (ct : String)
    (hin : pyIn (deviceType st.entity_id) types = true)
    (hl : deviceType st.entity_id ≠ "light") (hs : deviceType st.entity_id ≠ "switch") :
    output_attrs st types ct = .error (errorCall ("Unsupported device type (" ++
      deviceType st.entity_id ++ ") detected while trying to process entity " ++
      st.entity_id)) := by
  simp only [output_attrs]
  rw [if_pos hin, if_neg hl, if_neg hs]

theorem output_attrs_switch {st : EntityState} {types : String} (ct : String)
    (hsw : deviceType st.entity_id = "switch")
    (hin : pyIn (deviceType st.entity_id) types = true) :
    output_attrs st types ct = .ok (some (st.entity_id, .bare st.state)) := by
  have hl : deviceType st.entity_id ≠ "light" := by
    rw [hsw]
    decide
  simp only [output_attrs]
  rw [if_pos hin, if_neg hl, if_pos hsw]


/-! ## Lemmas: the assembly loop and filter folding -/

example (a b c : String) : (a ++ b) ++ c = a ++ (b ++ c) := String.append_assoc a b c

theorem assembleLoop_keys_mono (t c : String) (fl : List String) :
    ∀ (states : List EntityState) (acc ents : List (String × Projected)),
      assembleLoop t c fl states acc = .ok ents → ∀ x ∈ keys acc, x ∈ keys ents
  | [], acc, ents, h, x, hx => by
    simp only [assembleLoop, Except.ok.injEq] at h
    rwa [← h]
  | st :: rest, acc, ents, h, x, hx => by
    simp only [assembleLoop] at h
    split at h
    · exact assembleLoop_keys_mono t c fl rest acc ents h x hx
    · cases ho : output_attrs st t c with
      | error f => rw [ho] at h; simp at h
      | ok o =>
        rw [ho] at h
        cases o with
        | none => exact assembleLoop_keys_mono t c fl rest acc ents h x hx
        | some kv =>
          obtain ⟨k, v⟩ := kv
          exact assembleLoop_keys_mono t c fl rest _ ents h x
            (mem_keys_dictInsert_of_mem k v hx)

theorem assembleLoop_keys_sound (t c : String) (fl : List String) :
    ∀ (states : List EntityState) (acc ents : List (String × Projected)),
      assembleLoop t c fl states acc = .ok ents →
      ∀ x ∈ keys ents, x ∈ keys acc ∨ ∃ st ∈ states, st.entity_id = x ∧
        (fl ≠ [] → x ∈ fl) ∧ (deviceType x = "light" ∨ deviceType x = "switch")
  | [], acc, ents, h, x, hx => by
    simp only [assembleLoop, Except.ok.injEq] at h
    subst h
    exact Or.inl hx
  | st :: rest, acc, ents, h, x, hx => by
    simp only [assembleLoop] at h
    split at h
    · rcases assembleLoop_keys_sound t c fl rest acc ents h x hx with hl | ⟨s2, hs2, hrest⟩
      · exact Or.inl hl
      · exact Or.inr ⟨s2, List.mem_cons_of_mem st hs2, hrest⟩
    · next hcond =>
      cases ho : output_attrs st t c with
      | error f => rw [ho] at h; simp at h
      | ok o =>
        rw [ho] at h
        cases o with
        | none =>
          rcases assembleLoop_keys_sound t c fl rest acc ents h x hx with hl | ⟨s2, hs2, hrest⟩
          · exact Or.inl hl
          · exact Or.inr ⟨s2, List.mem_cons_of_mem st hs2, hrest⟩
        | some kv =>
          obtain ⟨k, v⟩ := kv
          rcases assembleLoop_keys_sound t c fl rest _ ents h x hx with hl | ⟨s2, hs2, hrest⟩
          · rcases mem_keys_dictInsert_cases hl with hacc | rfl
            · exact Or.inl hacc
            · obtain ⟨hk, _, hdev⟩ := output_attrs_ok_some ho
              refine Or.inr ⟨st, List.mem_cons_self st rest, hk.symm ▸ rfl, ?_, hk ▸ hdev⟩
              · intro hfl
                by_contra hx2
                exact hcond ⟨hfl, hk ▸ hx2⟩
          · exact Or.inr ⟨s2, List.mem_cons_of_mem st hs2, hrest⟩

theorem assembleLoop_error_of_unsupported (t c : String) (fl : List String) :
    ∀ (states : List EntityState) (acc : List (String × Projected)) (st : EntityState),
      st ∈ states → (fl = [] ∨ st.entity_id ∈ fl) →
      pyIn (deviceType st.entity_id) t = true →
      deviceType st.entity_id ≠ "light" → deviceType st.entity_id ≠ "switch" →
      ∃ f, assembleLoop t c fl states acc = .error f ∧ f.exitStatus = 1
  | [], _, st, hmem, _, _, _, _ => absurd hmem (List.not_mem_nil st)
  | s :: rest, acc, st, hmem, hpass, hin, hl, hs => by
    rcases List.mem_cons.mp hmem with rfl | hmem2
    · have hcond : ¬(fl ≠ [] ∧ st.entity_id ∉ fl) := by
        rcases hpass with hfl | hflmem
        · intro hc
          exact hc.1 hfl
        · intro hc
          exact hc.2 hflmem
      simp only [assembleLoop]
      rw [if_neg hcond, output_attrs_unsupported c hin hl hs]
      exact ⟨_, rfl, rfl⟩
    · simp only [assembleLoop]
      split
      · exact assembleLoop_error_of_unsupported t c fl rest acc st hmem2 hpass hin hl hs
      · cases ho : output_attrs s t c with
        | error f => exact ⟨f, rfl, output_attrs_error_exit ho⟩
        | ok o =>
          cases o with
          | none => exact assembleLoop_error_of_unsupported t c fl rest acc st hmem2 hpass hin hl hs
          | some kv =>
            obtain ⟨k, v⟩ := kv
            exact assembleLoop_error_of_unsupported t c fl rest _ st hmem2 hpass hin hl hs

theorem assembleLoop_complete_nofilter (t c : String) :
    ∀ (states : List EntityState) (acc ents : List (String × Projected)),
      assembleLoop t c [] states acc = .ok ents →
      ∀ st ∈ states, pyIn (deviceType st.entity_id) t = true → st.entity_id ∈ keys ents
  | [], _, _, _, st, hmem, _ => absurd hmem (List.not_mem_nil st)
  | s :: rest, acc, ents, h, st, hmem, hin => by
    have hcond : ¬(([] : List String) ≠ [] ∧ s.entity_id ∉ ([] : List String)) := by
      intro hc
      exact hc.1 rfl
    simp only [assembleLoop] at h
    rw [if_neg hcond] at h
    rcases List.mem_cons.mp hmem with rfl | hmem2
    · cases ho : output_attrs st t c with
      | error f => rw [ho] at h; simp at h
      | ok o =>
        rw [ho] at h
        cases o with
        | none => rw [output_attrs_ok_none ho] at hin; cases hin
        | some kv =>
          obtain ⟨k, v⟩ := kv
          have hk : k = st.entity_id := (output_attrs_ok_some ho).1
          rw [← hk]
          exact assembleLoop_keys_mono t c [] rest _ ents h k
            (mem_keys_dictInsert_self acc k v)
    · cases ho : output_attrs s t c with
      | error f => rw [ho] at h; simp at h
      | ok o =>
        rw [ho] at h
        cases o with
        | none => exact assembleLoop_complete_nofilter t c rest acc ents h st hmem2 hin
        | some kv =>
          obtain ⟨k, v⟩ := kv
          exact assembleLoop_complete_nofilter t c rest _ ents h st hmem2 hin

theorem foldl_sections_mem (filters : List String) :
    ∀ (sections : List (String × List String)) (init : List String) (x : String),
      (x ∈ sections.foldl (fun acc s => if s.1 ∈ filters then acc ++ s.2 else acc) init ↔
        x ∈ init ∨ ∃ s, s ∈ sections ∧ s.1 ∈ filters ∧ x ∈ s.2)
  | [], init, x => by simp
  | s :: ss, init, x => by
    simp only [List.foldl_cons]
    by_cases hs : s.1 ∈ filters
    · rw [if_pos hs, foldl_sections_mem filters ss (init ++ s.2) x]
      simp only [List.mem_append, List.mem_cons]
      constructor
      · rintro ((hx | hx) | ⟨s2, hs2, hf2, hx2⟩)
        · exact Or.inl hx
        · exact Or.inr ⟨s, Or.inl rfl, hs, hx⟩
        · exact Or.inr ⟨s2, Or.inr hs2, hf2, hx2⟩
      · rintro (hx | ⟨s2, (rfl | hs2), hf2, hx2⟩)
        · exact Or.inl (Or.inl hx)
        · exact Or.inl (Or.inr hx2)
        · exact Or.inr ⟨s2, hs2, hf2, hx2⟩
    · rw [if_neg hs, foldl_sections_mem filters ss init x]
      simp only [List.mem_cons]
      constructor
      · rintro (hx | ⟨s2, hs2, hf2, hx2⟩)
        · exact Or.inl hx
        · exact Or.inr ⟨s2, Or.inr hs2, hf2, hx2⟩
      · rintro (hx | ⟨s2, (rfl | hs2), hf2, hx2⟩)
        · exact Or.inl hx
        · exact absurd hf2 hs
        · exact Or.inr ⟨s2, hs2, hf2, hx2⟩


/-! ## Claims C2, C9, C6 -/

/-- The entity state witch.hazel, on, no attributes: its device type witch
is not one of the comma-separated names light, switch, yet it is a
substring of the string light,switch. -/
def c2state : EntityState := ⟨"witch.hazel", "on", []⟩

/-- Claim C2: evaluation of the projector at the failing input. The device
type witch is outside the comma-separated list of the default types option,
so the claim requires the entity to be excluded without error; the code
instead runs the Python substring test witch in light,switch, which
succeeds, and the projector terminates the run fatally. -/
theorem substring_types_check_failing_input :
    c2state.entity_id = "witch.hazel" ∧
    deviceType c2state.entity_id = "witch" ∧
    pySplit "light,switch" ',' = ["light", "switch"] ∧
    deviceType c2state.entity_id ∉ pySplit "light,switch" ',' ∧
    output_attrs c2state "light,switch" "xy_color" =
      .error (errorCall
        "Unsupported device type (witch) detected while trying to process entity witch.hazel") ∧
    (errorCall
      "Unsupported device type (witch) detected while trying to process entity witch.hazel").exitStatus
      = 1 :=
  ⟨rfl, by decide, rfl, by decide, rfl, rfl⟩

/-- Claim C9: an entity_id without a dot is its own device type, and an
entity whose id is exactly switch is projected under the key switch with
its bare state string under the default types option. -/
theorem no_dot_entity_id_device_type (st : EntityState) (ct : String)
    (h : st.entity_id.data.all (fun c => c != '.') = true) :
    deviceType st.entity_id = st.entity_id ∧
    (st.entity_id = "switch" →
      output_attrs st "light,switch" ct = .ok (some ("switch", .bare st.state))) := by
  have hdt : deviceType st.entity_id = st.entity_id := by
    unfold deviceType
    have htw : st.entity_id.data.takeWhile (fun c => c != '.') = st.entity_id.data :=
      List.takeWhile_eq_self_iff.mpr (fun a ha => List.all_eq_true.mp h a ha)
    rw [htw]
  refine ⟨hdt, fun heq => ?_⟩
  have hsw : deviceType st.entity_id = "switch" := by rw [hdt, heq]
  have hin : pyIn (deviceType st.entity_id) "light,switch" = true := by
    rw [hsw]
    decide
  rw [output_attrs_switch ct hsw hin, heq]

def c9state : EntityState := ⟨"switch", "standby", []⟩

theorem no_dot_entity_id_device_type_witness :
    c9state.entity_id.data.all (fun c => c != '.') = true ∧
    (deviceType c9state.entity_id = c9state.entity_id ∧
     (c9state.entity_id = "switch" →
       output_attrs c9state "light,switch" "xy_color" =
         .ok (some ("switch", .bare c9state.state)))) :=
  ⟨by decide, no_dot_entity_id_device_type c9state "xy_color" (by decide)⟩

/-- Claim C6: a device type that passes the allowed-types test of line 43
but is neither light nor switch is fatal: the projector returns the error
of error() with exit status 1 and a diagnostic naming the device type and
the entity id, and the whole run fails with exit status 1; a switch entity
projects to its bare state string, not a mapping. -/
theorem unsupported_type_fatal_and_switch_bare (st : EntityState) (types ct : String)
    (hin : pyIn (deviceType st.entity_id) types = true) :
    (deviceType st.entity_id ≠ "light" → deviceType st.entity_id ≠ "switch" →
      ∃ f, output_attrs st types ct = .error f ∧ f.exitStatus = 1 ∧
        ∃ a b c2, f.stderr = a ++ deviceType st.entity_id ++ b ++ st.entity_id ++ c2) ∧
    (deviceType st.entity_id = "switch" →
      output_attrs st types ct = .ok (some (st.entity_id, .bare st.state))) ∧
    (∀ (args : Args) (states : List EntityState) (fl : List String) (sn : String),
      args.types = types → args.colortype = ct → st ∈ states →
      resolveFilter args = .ok (fl, sn) → (fl = [] ∨ st.entity_id ∈ fl) →
      deviceType st.entity_id ≠ "light" → deviceType st.entity_id ≠ "switch" →
      ∃ f, runMain args states = .error f ∧ exitCode (runMain args states) = 1) := by
  refine ⟨fun hl hs => ?_, fun hsw => output_attrs_switch ct hsw hin, ?_⟩
  · refine ⟨_, output_attrs_unsupported ct hin hl hs, rfl, "error: Unsupported device type (",
      ") detected while trying to process entity ", "\n", ?_⟩
    show "error: " ++ ("Unsupported device type (" ++ deviceType st.entity_id ++
      ") detected while trying to process entity " ++ st.entity_id) ++ "\n" = _
    simp only [← String.append_assoc]
    rw [show ("error: " : String) ++ "Unsupported device type (" =
      "error: Unsupported device type (" from rfl]
  · intro args states fl sn hty hct hmem hres hpass hl hs
    have hin2 : pyIn (deviceType st.entity_id) args.types = true := by rw [hty]; exact hin
    obtain ⟨f, hf, hexit⟩ := assembleLoop_error_of_unsupported args.types args.colortype fl
      states [] st hmem hpass hin2 hl hs
    have hrun : runMain args states = .error f := by
      simp only [runMain, hres, hf]
    refine ⟨f, hrun, ?_⟩
    rw [hrun]
    exact hexit

def c6state : EntityState := ⟨"climate.x", "heat", []⟩

def c6args : Args :=
  { scenename? := none, mapfile? := none, filter? := none, sourceScene? := none,
    types := "light,switch,climate" }

theorem unsupported_type_fatal_and_switch_bare_witness :
    pyIn (deviceType c6state.entity_id) "light,switch,climate" = true ∧
    ((deviceType c6state.entity_id ≠ "light" → deviceType c6state.entity_id ≠ "switch" →
      ∃ f, output_attrs c6state "light,switch,climate" "xy_color" = .error f ∧
        f.exitStatus = 1 ∧
        ∃ a b c2, f.stderr = a ++ deviceType c6state.entity_id ++ b ++ c6state.entity_id ++ c2) ∧
     (deviceType c6state.entity_id = "switch" →
      output_attrs c6state "light,switch,climate" "xy_color" =
        .ok (some (c6state.entity_id, .bare c6state.state))) ∧
     (∀ (args : Args) (states : List EntityState) (fl : List String) (sn : String),
      args.types = "light,switch,climate" → args.colortype = "xy_color" → c6state ∈ states →
      resolveFilter args = .ok (fl, sn) → (fl = [] ∨ c6state.entity_id ∈ fl) →
      deviceType c6state.entity_id ≠ "light" → deviceType c6state.entity_id ≠ "switch" →
      ∃ f, runMain args states = .error f ∧ exitCode (runMain args states) = 1)) :=
  ⟨by decide, unsupported_type_fatal_and_switch_bare c6state "light,switch,climate" "xy_color"
    (by decide)⟩


/-! ## Claims C7, C10, C5 -/

/-- Claim C7: with a mapfile and a filter both supplied, the resolved
filter list holds exactly the option keys of the sections whose name
matches one of the comma-separated filter names; an empty result is fatal
with exit status 1 and a diagnostic naming the mapfile path and the filter
string; a nonempty result resolves successfully. -/
theorem mapfile_filter_resolution (args : Args) (path : String)
    (sections : List (String × List String)) (fstr : String)
    (hm : args.mapfile? = some (path, sections)) (hp : path ≠ "")
    (hf : args.filter? = some fstr) (hfne : fstr ≠ "") :
    (∀ fl sn, resolveFilter args = .ok (fl, sn) →
      ∀ x, x ∈ fl ↔ ∃ s, s ∈ sections ∧ s.1 ∈ pySplit fstr ',' ∧ x ∈ s.2) ∧
    ((¬ ∃ s, s ∈ sections ∧ s.1 ∈ pySplit fstr ',' ∧ s.2 ≠ []) →
      ∃ f, resolveFilter args = .error f ∧ f.exitStatus = 1 ∧
        f.stderr = "error: No entities found in mapfile " ++ path ++
          ", sections " ++ fstr ++ "\n") ∧
    ((∃ s, s ∈ sections ∧ s.1 ∈ pySplit fstr ',' ∧ s.2 ≠ []) →
      ∃ fl sn, resolveFilter args = .ok (fl, sn) ∧ fl ≠ []) := by
  have hcond : (mapfileTruthy args && filterTruthy args) = true := by
    simp [mapfileTruthy, filterTruthy, hm, hf, hp, hfne]
  have hmem : ∀ x, x ∈ sections.foldl
      (fun acc s => if s.1 ∈ pySplit fstr ',' then acc ++ s.2 else acc) [] ↔
      ∃ s, s ∈ sections ∧ s.1 ∈ pySplit fstr ',' ∧ x ∈ s.2 := by
    intro x
    rw [foldl_sections_mem (pySplit fstr ',') sections [] x]
    simp
  by_cases hFL : sections.foldl
      (fun acc s => if s.1 ∈ pySplit fstr ',' then acc ++ s.2 else acc) [] = []
  · have hres : resolveFilter args = .error (errorCall ("No entities found in mapfile " ++
        path ++ ", sections " ++ fstr)) := by
      simp only [resolveFilter, hcond, if_true, hm, hf]
      simp only [Option.map_some', Option.getD_some]
      rw [if_pos hFL]
    refine ⟨?_, ?_, ?_⟩
    · intro fl sn hok
      rw [hres] at hok
      cases hok
    · intro _
      refine ⟨_, hres, rfl, ?_⟩
      show "error: " ++ ("No entities found in mapfile " ++ path ++ ", sections " ++ fstr) ++
        "\n" = _
      simp only [← String.append_assoc]
      rw [show ("error: " : String) ++ "No entities found in mapfile " =
        "error: No entities found in mapfile " from rfl]
    · rintro ⟨s, hs, hsf, hsne⟩
      obtain ⟨x, hx⟩ := List.exists_mem_of_ne_nil s.2 hsne
      have : x ∈ sections.foldl
          (fun acc s => if s.1 ∈ pySplit fstr ',' then acc ++ s.2 else acc) [] :=
        (hmem x).mpr ⟨s, hs, hsf, hx⟩
      rw [hFL] at this
      cases this
  · have hres : resolveFilter args = .ok (sections.foldl
        (fun acc s => if s.1 ∈ pySplit fstr ',' then acc ++ s.2 else acc) [],
        args.scenename?.getD scenenameDefault) := by
      simp only [resolveFilter, hcond, if_true, hm, hf]
      simp only [Option.map_some', Option.getD_some]
      rw [if_neg hFL]
    refine ⟨?_, ?_, ?_⟩
    · intro fl sn hok
      rw [hres] at hok
      simp only [Except.ok.injEq, Prod.mk.injEq] at hok
      intro x
      rw [← hok.1]
      exact hmem x
    · intro hno
      exfalso
      apply hFL
      rw [List.eq_nil_iff_forall_not_mem]
      intro x hx
      exact hno ((hmem x).mp hx |> fun ⟨s, hs, hsf, hxs⟩ =>
        ⟨s, hs, hsf, List.ne_nil_of_mem hxs⟩)
    · intro _
      exact ⟨_, _, hres, hFL⟩

def c7args : Args :=
  { scenename? := none,
    mapfile? := some ("map.cfg",
      [("livingroom", ["light.lamp1", "switch.fan1"]), ("bedroom", ["light.b"])]),
    filter? := some "livingroom",
    sourceScene? := none }

theorem mapfile_filter_resolution_witness :
    c7args.mapfile? = some ("map.cfg",
      [("livingroom", ["light.lamp1", "switch.fan1"]), ("bedroom", ["light.b"])]) ∧
    ("map.cfg" : String) ≠ "" ∧ c7args.filter? = some "livingroom" ∧
    ("livingroom" : String) ≠ "" ∧
    ((∀ fl sn, resolveFilter c7args = .ok (fl, sn) →
      ∀ x, x ∈ fl ↔ ∃ s, s ∈ [("livingroom", ["light.lamp1", "switch.fan1"]),
        ("bedroom", ["light.b"])] ∧ s.1 ∈ pySplit "livingroom" ',' ∧ x ∈ s.2) ∧
    ((¬ ∃ s, s ∈ [("livingroom", ["light.lamp1", "switch.fan1"]), ("bedroom", ["light.b"])] ∧
        s.1 ∈ pySplit "livingroom" ',' ∧ s.2 ≠ []) →
      ∃ f, resolveFilter c7args = .error f ∧ f.exitStatus = 1 ∧
        f.stderr = "error: No entities found in mapfile " ++ "map.cfg" ++
          ", sections " ++ "livingroom" ++ "\n") ∧
    ((∃ s, s ∈ [("livingroom", ["light.lamp1", "switch.fan1"]), ("bedroom", ["light.b"])] ∧
        s.1 ∈ pySplit "livingroom" ',' ∧ s.2 ≠ []) →
      ∃ fl sn, resolveFilter c7args = .ok (fl, sn) ∧ fl ≠ [])) :=
  ⟨rfl, by decide, rfl, by decide,
    mapfile_filter_resolution c7args "map.cfg"
      [("livingroom", ["light.lamp1", "switch.fan1"]), ("bedroom", ["light.b"])]
      "livingroom" rfl (by decide) rfl (by decide)⟩

/-- Claim C10: a filter option without a truthy mapfile (or a mapfile
without a filter), with no source scene, is silently ignored: filter
resolution succeeds with the empty filter list, and on a successful run
every fetched entity passing the allowed-types test of line 43 appears in
the output entities. -/
theorem lone_filter_option_ignored (args : Args) (states : List EntityState) (doc : SceneDoc)
    (h1 : ¬(mapfileTruthy args = true ∧ filterTruthy args = true))
    (h2 : args.sourceScene? = none) :
    resolveFilter args = .ok ([], args.scenename?.getD scenenameDefault) ∧
    (runMain args states = .ok doc →
      ∀ st ∈ states, pyIn (deviceType st.entity_id) args.types = true →
        st.entity_id ∈ keys doc.entities) := by
  have hcond : (mapfileTruthy args && filterTruthy args) = false := by
    cases hma : mapfileTruthy args <;> cases hft : filterTruthy args <;> simp_all
  have hres : resolveFilter args = .ok ([], args.scenename?.getD scenenameDefault) := by
    simp only [resolveFilter, hcond, Bool.false_eq_true, if_false, h2]
  refine ⟨hres, fun hrun st hmem hin => ?_⟩
  simp only [runMain, hres] at hrun
  cases hasm : assembleLoop args.types args.colortype [] states [] with
  | error f =>
    rw [hasm] at hrun
    cases hrun
  | ok ents =>
    rw [hasm] at hrun
    simp only [Except.ok.injEq] at hrun
    have hkeys := assembleLoop_complete_nofilter args.types args.colortype states [] ents
      hasm st hmem hin
    rw [← hrun]
    exact hkeys

def c10args : Args :=
  { scenename? := none, mapfile? := none, filter? := some "livingroom", sourceScene? := none }

def c10doc : SceneDoc :=
  { name := "My New Scene", entities := [("light.w10", .mapping [("state", .s "on")])] }

theorem lone_filter_option_ignored_witness :
    ¬(mapfileTruthy c10args = true ∧ filterTruthy c10args = true) ∧
    c10args.sourceScene? = none ∧
    (resolveFilter c10args = .ok ([], c10args.scenename?.getD scenenameDefault) ∧
     (runMain c10args [⟨"light.w10", "on", []⟩] = .ok c10doc →
      ∀ st ∈ [(⟨"light.w10", "on", []⟩ : EntityState)],
        pyIn (deviceType st.entity_id) c10args.types = true →
        st.entity_id ∈ keys c10doc.entities)) :=
  ⟨by decide, rfl,
    lone_filter_option_ignored c10args [⟨"light.w10", "on", []⟩] c10doc (by decide) rfl⟩

/-- Claim C5: on a successful run every key of the output entities passed
the filter-set membership test (when a filter is active) and has device
type light or switch; an entity passing the filter whose device type
passes the allowed-types test but is neither light nor switch makes the
whole run fail instead of being dropped. -/
theorem entities_invariant (args : Args) (states : List EntityState) (fl : List String)
    (sn : String) (doc : SceneDoc)
    (hres : resolveFilter args = .ok (fl, sn)) :
    (runMain args states = .ok doc →
      ∀ k ∈ keys doc.entities, (fl ≠ [] → k ∈ fl) ∧
        (deviceType k = "light" ∨ deviceType k = "switch")) ∧
    (∀ st ∈ states, (fl = [] ∨ st.entity_id ∈ fl) →
      pyIn (deviceType st.entity_id) args.types = true →
      deviceType st.entity_id ≠ "light" → deviceType st.entity_id ≠ "switch" →
      ∃ f, runMain args states = .error f ∧ f.exitStatus = 1) := by
  constructor
  · intro hrun k hk
    simp only [runMain, hres] at hrun
    cases hasm : assembleLoop args.types args.colortype fl states [] with
    | error f =>
      rw [hasm] at hrun
      cases hrun
    | ok ents =>
      rw [hasm] at hrun
      simp only [Except.ok.injEq] at hrun
      rw [← hrun] at hk
      rcases assembleLoop_keys_sound args.types args.colortype fl states [] ents hasm k hk with
        habs | ⟨st, _, _, hfl2, hdev⟩
      · simp [keys] at habs
      · exact ⟨hfl2, hdev⟩
  · intro st hmem hpass hin hl hs
    obtain ⟨f, hf, hexit⟩ := assembleLoop_error_of_unsupported args.types args.colortype fl
      states [] st hmem hpass hin hl hs
    exact ⟨f, by simp only [runMain, hres, hf], hexit⟩

def c5args : Args :=
  { scenename? := none, mapfile? := none, filter? := none, sourceScene? := none }

def c5doc : SceneDoc :=
  { name := "My New Scene", entities := [("light.w5", .mapping [("state", .s "on")])] }

theorem entities_invariant_witness :
    resolveFilter c5args = .ok ([], "My New Scene") ∧
    ((runMain c5args [⟨"light.w5", "on", []⟩] = .ok c5doc →
      ∀ k ∈ keys c5doc.entities,
        (([] : List String) ≠ [] → k ∈ ([] : List String)) ∧
        (deviceType k = "light" ∨ deviceType k = "switch")) ∧
    (∀ st ∈ [(⟨"light.w5", "on", []⟩ : EntityState)],
      (([] : List String) = [] ∨ st.entity_id ∈ ([] : List String)) →
      pyIn (deviceType st.entity_id) c5args.types = true →
      deviceType st.entity_id ≠ "light" → deviceType st.entity_id ≠ "switch" →
      ∃ f, runMain c5args [⟨"light.w5", "on", []⟩] = .error f ∧ f.exitStatus = 1)) :=
  ⟨rfl, entities_invariant c5args [⟨"light.w5", "on", []⟩] [] "My New Scene" c5doc rfl⟩


/-! ## Claims C4, C8 -/

def c4scene : Yaml :=
  .map [("name", .scalar (.s "Evening")), ("entities", .map [("light.lamp1", .map [])])]

def c4args : Args :=
  { scenename? := some "My New Scene", mapfile? := none, filter? := none,
    sourceScene? := some c4scene }

/-- Claim C4 counterexample: the caller explicitly passes the scene name
My New Scene on the command line; because that value equals the argparse
default, the code cannot tell it apart from an absent option and takes the
name Evening from the source scene file instead of the passed name. -/
theorem source_scene_name_override_counterexample :
    c4args.scenename? = some "My New Scene" ∧
    resolveFilter c4args = .ok (["light.lamp1"], "Evening") ∧
    ("Evening" : String) ≠ "My New Scene" :=
  ⟨rfl, rfl, by decide⟩

/-- Claim C4 as amended: with a source scene file (and no truthy
mapfile-filter pair), the filter list is exactly the keys of the entities
mapping of the file, and the scene name is the name field of the file
unless the resolved command-line scene name differs from the default
My New Scene, in which case the command-line name wins. A name passed
explicitly but equal to the default is indistinguishable from an absent
option, so the file name is used. -/
theorem source_scene_resolution (args : Args) (y : Yaml) (n : String) (ks : List String)
    (hnm : ¬(mapfileTruthy args = true ∧ filterTruthy args = true))
    (hs : args.sourceScene? = some y)
    (hwf : sceneExtract y = some (n, ks)) :
    ∃ sn, resolveFilter args = .ok (ks, sn) ∧
      (args.scenename? = none → sn = n) ∧
      (args.scenename? = some scenenameDefault → sn = n) ∧
      (∀ s, args.scenename? = some s → s ≠ scenenameDefault → sn = s) := by
  have hcond : (mapfileTruthy args && filterTruthy args) = false := by
    cases hma : mapfileTruthy args <;> cases hft : filterTruthy args <;> simp_all
  refine ⟨if (args.scenename?.getD scenenameDefault) == scenenameDefault then n
    else args.scenename?.getD scenenameDefault, ?_, ?_, ?_, ?_⟩
  · simp only [resolveFilter, hcond, Bool.false_eq_true, if_false, hs, hwf]
  · intro hnone
    rw [hnone]
    simp
  · intro hsome
    rw [hsome]
    simp
  · intro s hsome hne
    rw [hsome]
    simp only [Option.getD_some]
    rw [if_neg]
    simp only [beq_iff_eq]
    exact hne

def c4wscene : Yaml :=
  .map [("name", .scalar (.s "Morning")), ("entities", .map [("switch.tv", .map [])])]

def c4wargs : Args :=
  { scenename? := some "Dusk", mapfile? := none, filter? := none,
    sourceScene? := some c4wscene }

theorem source_scene_resolution_witness :
    ¬(mapfileTruthy c4wargs = true ∧ filterTruthy c4wargs = true) ∧
    c4wargs.sourceScene? = some c4wscene ∧
    sceneExtract c4wscene = some ("Morning", ["switch.tv"]) ∧
    (∃ sn, resolveFilter c4wargs = .ok (["switch.tv"], sn) ∧
      (c4wargs.scenename? = none → sn = "Morning") ∧
      (c4wargs.scenename? = some scenenameDefault → sn = "Morning") ∧
      (∀ s, c4wargs.scenename? = some s → s ≠ scenenameDefault → sn = s)) :=
  ⟨by decide, rfl, rfl,
    source_scene_resolution c4wargs c4wscene "Morning" ["switch.tv"] (by decide) rfl rfl⟩

/-- Claim C8: serializing a scene document and reading the result back as
a source scene yields the same scene name and the same set of entity ids.
The representer sorts the mappings, so the key list comes back as a
permutation with an equal member set. -/
theorem serialize_parse_round_trip (doc : SceneDoc) :
    ∃ ks, sceneExtract (serializeAST doc) = some (doc.name, ks) ∧
      ∀ k, k ∈ ks ↔ k ∈ keys doc.entities := by
  have hk : keyLe "entities" "name" = true := by decide
  have htop : sortPairs [("entities", Yaml.map (sortedEntities doc)),
      ("name", Yaml.scalar (.s doc.name))] =
      [("entities", Yaml.map (sortedEntities doc)), ("name", Yaml.scalar (.s doc.name))] := by
    simp [sortPairs, insertPair, hk]
  have hext : sceneExtract (serializeAST doc) =
      some (doc.name, (sortedEntities doc).map (fun p => p.1)) := by
    simp only [serializeAST, htop, sceneExtract]
    have h1 : alook "name" [("entities", Yaml.map (sortedEntities doc)),
        ("name", Yaml.scalar (.s doc.name))] = some (Yaml.scalar (.s doc.name)) := by
      simp [alook]
    have h2 : alook "entities" [("entities", Yaml.map (sortedEntities doc)),
        ("name", Yaml.scalar (.s doc.name))] = some (Yaml.map (sortedEntities doc)) := by
      simp [alook]
    rw [h1, h2]
  refine ⟨(sortedEntities doc).map (fun p => p.1), hext, fun k => ?_⟩
  have hperm : List.Perm (sortedEntities doc)
      (doc.entities.map (fun p => (p.1, projToYamlSorted p.2))) :=
    perm_sortPairs _
  have hmap := hperm.map (fun p => p.1)
  rw [hmap.mem_iff]
  simp [keys, List.map_map, Function.comp]


/-! ## Claim C3 -/

theorem specPreferredColor_isSome {attrs : List (String × JVal)} {ct c : String}
    (h : specPreferredColor attrs ct = some c) : (alook c attrs).isSome = true := by
  unfold specPreferredColor at h
  split at h
  next hp =>
    simp only [Option.some.injEq] at h
    rw [← h]
    exact hp
  next hp =>
    have hpa := List.find?_some h
    simpa using hpa

theorem nodup_filter_some_bound :
    ∀ (l : List String), l.Nodup → ∀ (co : Option String),
      (l.filter (fun x => co = some x)).length ≤ 1
  | [], _, _ => by simp
  | a :: l, hnd, co => by
    rw [List.filter_cons]
    by_cases hco : co = some a
    · rw [if_pos (by simpa using hco)]
      have hrest : l.filter (fun x => co = some x) = [] := by
        rw [List.filter_eq_nil_iff]
        intro x hx hpx
        have hxa : x = a := by
          have h2 : some a = some x := by rw [← hco]; simpa using hpx
          exact (Option.some.inj h2).symm
        exact (List.nodup_cons.mp hnd).1 (hxa ▸ hx)
      rw [hrest]
      simp
    · rw [if_neg (by simpa using hco)]
      exact nodup_filter_some_bound l (List.nodup_cons.mp hnd).2 co

theorem color_filter_bound (m attrs : List (String × JVal)) (ct : String)
    (hchar : ∀ c ∈ LIGHT_COLOR_TYPES,
      alook c m = if specPreferredColor attrs ct = some c then alook c attrs else none) :
    (LIGHT_COLOR_TYPES.filter (fun c => (alook c m).isSome)).length ≤ 1 := by
  have heq : LIGHT_COLOR_TYPES.filter (fun c => (alook c m).isSome) =
      LIGHT_COLOR_TYPES.filter (fun c => specPreferredColor attrs ct = some c) := by
    apply List.filter_congr
    intro c hc
    rw [hchar c hc]
    by_cases hsp : specPreferredColor attrs ct = some c
    · rw [if_pos hsp]
      simp [hsp, specPreferredColor_isSome hsp]
    · rw [if_neg hsp]
      simp [hsp]
  rw [heq]
  exact nodup_filter_some_bound LIGHT_COLOR_TYPES (by decide) _

/-- Claim C3: for an allowed light entity the projected mapping carries
the state string under the key state; each allow-listed attribute present
in the entity attributes is copied verbatim and each absent one is absent
from the projection; and the color keys of the projection are exactly
described by specPreferredColor (the preferred color attribute when
present, otherwise the first present one in declared order), so at most
one color attribute key ever appears. -/
theorem light_projection_correct (st : EntityState) (types ct : String)
    (hdev : deviceType st.entity_id = "light")
    (ht : pyIn (deviceType st.entity_id) types = true)
    (hct : ct ∈ LIGHT_COLOR_TYPES) :
    ∃ m, output_attrs st types ct = .ok (some (st.entity_id, .mapping m)) ∧
      alook "state" m = some (.s st.state) ∧
      (∀ a ∈ LIGHT_ATTRS, alook a m = alook a st.attributes) ∧
      (∀ c ∈ LIGHT_COLOR_TYPES,
        alook c m = if specPreferredColor st.attributes ct = some c
          then alook c st.attributes else none) ∧
      (LIGHT_COLOR_TYPES.filter (fun c => (alook c m).isSome)).length ≤ 1 := by
  have hctne : ct ≠ "" := (show ∀ c ∈ LIGHT_COLOR_TYPES, c ≠ "" by decide) ct hct
  have hsA : ∀ a ∈ LIGHT_ATTRS, a ≠ "state" := by decide
  have hsC : ∀ c ∈ LIGHT_COLOR_TYPES, c ≠ "state" := by decide
  have hdisj : ∀ a ∈ LIGHT_ATTRS, ∀ c ∈ LIGHT_COLOR_TYPES, a ≠ c := by decide
  have hnodupA : LIGHT_ATTRS.Nodup := by decide
  have hstateA : "state" ∉ LIGHT_ATTRS := by decide
  have hstate_nu1 : alook "state"
      (copyAttrs LIGHT_ATTRS st.attributes (dictInsert [] "state" (JVal.s st.state))) =
      some (.s st.state) := by
    rw [copyAttrs_alook_not_mem LIGHT_ATTRS st.attributes _ hstateA]
    exact alook_dictInsert_self [] "state" (JVal.s st.state)
  have hA_nu1 : ∀ a ∈ LIGHT_ATTRS, alook a
      (copyAttrs LIGHT_ATTRS st.attributes (dictInsert [] "state" (JVal.s st.state))) =
      alook a st.attributes := by
    intro a ha
    rw [copyAttrs_alook_mem LIGHT_ATTRS st.attributes _ hnodupA ha]
    rw [alook_dictInsert_ne [] (JVal.s st.state) (hsA a ha)]
    cases alook a st.attributes <;> rfl
  have hC_nu1 : ∀ c ∈ LIGHT_COLOR_TYPES, alook c
      (copyAttrs LIGHT_ATTRS st.attributes (dictInsert [] "state" (JVal.s st.state))) =
      none := by
    intro c hc
    have hcA : c ∉ LIGHT_ATTRS := fun hmem => hdisj c hmem c hc rfl
    rw [copyAttrs_alook_not_mem LIGHT_ATTRS st.attributes _ hcA]
    exact alook_dictInsert_ne [] (JVal.s st.state) (hsC c hc)
  rcases hv : alook ct st.attributes with _ | v
  · -- preferred color absent: the fallback scan runs
    have hspec : specPreferredColor st.attributes ct =
        LIGHT_COLOR_TYPES.find? (fun c => (alook c st.attributes).isSome) := by
      unfold specPreferredColor
      rw [if_neg]
      rw [hv]
      simp
    have hm4 : ∀ c ∈ LIGHT_COLOR_TYPES,
        alook c (addFirstColor LIGHT_COLOR_TYPES st.attributes
          (copyAttrs LIGHT_ATTRS st.attributes (dictInsert [] "state" (JVal.s st.state)))) =
        if specPreferredColor st.attributes ct = some c
          then alook c st.attributes else none := by
      intro c hc
      cases hfind : LIGHT_COLOR_TYPES.find? (fun x => (alook x st.attributes).isSome) with
      | none =>
        rw [addFirstColor_alook]
        simp only [hfind]
        rw [hC_nu1 c hc, hspec, hfind]
        simp
      | some c0 =>
        rw [addFirstColor_alook]
        simp only [hfind]
        rw [hspec, hfind]
        by_cases hcc : c = c0
        · rw [if_pos hcc, if_pos (by rw [hcc]), hcc]
        · rw [if_neg hcc, if_neg (fun he => hcc (Option.some.inj he).symm), hC_nu1 c hc]
    refine ⟨addFirstColor LIGHT_COLOR_TYPES st.attributes
      (copyAttrs LIGHT_ATTRS st.attributes (dictInsert [] "state" (JVal.s st.state))),
      ?_, ?_, ?_, hm4, color_filter_bound _ st.attributes ct hm4⟩
    · simp only [output_attrs]
      rw [if_pos ht, if_pos hdev, if_neg hctne, hv]
    · cases hfind : LIGHT_COLOR_TYPES.find? (fun x => (alook x st.attributes).isSome) with
      | none =>
        rw [addFirstColor_alook]
        simp only [hfind]
        exact hstate_nu1
      | some c0 =>
        have hc0 : c0 ∈ LIGHT_COLOR_TYPES := List.mem_of_find?_eq_some hfind
        rw [addFirstColor_alook]
        simp only [hfind]
        rw [if_neg (fun he => hsC c0 hc0 he.symm)]
        exact hstate_nu1
    · intro a ha
      cases hfind : LIGHT_COLOR_TYPES.find? (fun x => (alook x st.attributes).isSome) with
      | none =>
        rw [addFirstColor_alook]
        simp only [hfind]
        exact hA_nu1 a ha
      | some c0 =>
        have hc0 : c0 ∈ LIGHT_COLOR_TYPES := List.mem_of_find?_eq_some hfind
        rw [addFirstColor_alook]
        simp only [hfind]
        rw [if_neg (hdisj a ha c0 hc0)]
        exact hA_nu1 a ha
  · -- preferred color present: it is copied and the scan is skipped
    have hspec : specPreferredColor st.attributes ct = some ct := by
      unfold specPreferredColor
      rw [if_pos]
      rw [hv]
      rfl
    have hm4 : ∀ c ∈ LIGHT_COLOR_TYPES,
        alook c (dictInsert (copyAttrs LIGHT_ATTRS st.attributes
          (dictInsert [] "state" (JVal.s st.state))) ct v) =
        if specPreferredColor st.attributes ct = some c
          then alook c st.attributes else none := by
      intro c hc
      by_cases hcc : c = ct
      · rw [hcc, alook_dictInsert_self, if_pos (by rw [hspec]), hv]
      · rw [alook_dictInsert_ne _ v hcc, hC_nu1 c hc, hspec,
          if_neg (fun he => hcc (Option.some.inj he).symm)]
    refine ⟨dictInsert (copyAttrs LIGHT_ATTRS st.attributes
      (dictInsert [] "state" (JVal.s st.state))) ct v,
      ?_, ?_, ?_, hm4, color_filter_bound _ st.attributes ct hm4⟩
    · simp only [output_attrs]
      rw [if_pos ht, if_pos hdev, if_neg hctne, hv]
    · rw [alook_dictInsert_ne _ v (fun he => hsC ct hct he.symm)]
      exact hstate_nu1
    · intro a ha
      rw [alook_dictInsert_ne _ v (fun he => hdisj a ha ct hct he)]
      exact hA_nu1 a ha

def c3state : EntityState :=
  ⟨"light.desk", "on",
    [("brightness", .int 128), ("color_name", .s "red"), ("color_temp", .int 300)]⟩

theorem light_projection_correct_witness :
    deviceType c3state.entity_id = "light" ∧
    pyIn (deviceType c3state.entity_id) "light,switch" = true ∧
    ("rgb_color" : String) ∈ LIGHT_COLOR_TYPES ∧
    (∃ m, output_attrs c3state "light,switch" "rgb_color" =
        .ok (some (c3state.entity_id, .mapping m)) ∧
      alook "state" m = some (.s c3state.state) ∧
      (∀ a ∈ LIGHT_ATTRS, alook a m = alook a c3state.attributes) ∧
      (∀ c ∈ LIGHT_COLOR_TYPES,
        alook c m = if specPreferredColor c3state.attributes "rgb_color" = some c
          then alook c c3state.attributes else none) ∧
      (LIGHT_COLOR_TYPES.filter (fun c => (alook c m).isSome)).length ≤ 1) :=
  ⟨by decide, by decide, by decide,
    light_projection_correct c3state "light,switch" "rgb_color" (by decide) (by decide)
      (by decide)⟩


/-! ## Claim C1 -/

theorem strConcat_endsNl :
    ∀ (l : List String), l ≠ [] → (∀ s ∈ l, ∃ r, s = r ++ "\n") →
      ∃ r, strConcat l = r ++ "\n"
  | [], h, _ => absurd rfl h
  | s :: rest, _, hall => by
    cases rest with
    | nil =>
      obtain ⟨r, hr⟩ := hall s (List.mem_cons_self s [])
      refine ⟨r, ?_⟩
      show s ++ strConcat [] = r ++ "\n"
      rw [hr]
      show (r ++ "\n") ++ "" = r ++ "\n"
      rw [String.append_empty]
    | cons s2 rest2 =>
      obtain ⟨r2, hr2⟩ := strConcat_endsNl (s2 :: rest2) (by simp)
        (fun x hx => hall x (List.mem_cons_of_mem s hx))
      refine ⟨s ++ r2, ?_⟩
      show s ++ strConcat (s2 :: rest2) = (s ++ r2) ++ "\n"
      rw [hr2, String.append_assoc]

theorem attrLine_decomp (ind : Nat) (k : String) (v : JVal) :
    ∃ mid, attrLine ind k v = (indent ind ++ k ++ ":") ++ (mid ++ "\n") := by
  match v with
  | .arr [] =>
    refine ⟨" []", ?_⟩
    show indent ind ++ k ++ ": []\n" = _
    simp only [String.append_assoc]
    rfl
  | .arr (x :: xs) =>
    obtain ⟨r, hr⟩ := strConcat_endsNl
      ((x :: xs).map (fun e => indent ind ++ "- " ++ flatScalar e ++ "\n")) (by simp)
      (by
        intro s hs
        obtain ⟨e, _, rfl⟩ := List.mem_map.mp hs
        exact ⟨indent ind ++ "- " ++ flatScalar e, rfl⟩)
    refine ⟨"\n" ++ r, ?_⟩
    show indent ind ++ k ++ ":\n" ++
      strConcat ((x :: xs).map (fun e => indent ind ++ "- " ++ flatScalar e ++ "\n")) = _
    rw [hr]
    simp only [String.append_assoc]
    rfl
  | .s sv =>
    refine ⟨" " ++ flatScalar (.s sv), ?_⟩
    show indent ind ++ k ++ ": " ++ flatScalar (.s sv) ++ "\n" = _
    simp only [String.append_assoc]
    rfl
  | .int n =>
    refine ⟨" " ++ flatScalar (.int n), ?_⟩
    show indent ind ++ k ++ ": " ++ flatScalar (.int n) ++ "\n" = _
    simp only [String.append_assoc]
    rfl

theorem entEntry_decomp (p : String × Yaml) :
    ∃ mid, entEntry p = ("  " ++ p.1 ++ ":") ++ (mid ++ "\n") := by
  obtain ⟨k, y⟩ := p
  match y with
  | .scalar v =>
    obtain ⟨mid, hmid⟩ := attrLine_decomp 1 k v
    exact ⟨mid, hmid⟩
  | .map [] =>
    refine ⟨" \x7b\x7d", ?_⟩
    show indent 1 ++ k ++ ": \x7b\x7d\n" = _
    simp only [String.append_assoc]
    rfl
  | .map (e :: es) =>
    obtain ⟨r, hr⟩ := strConcat_endsNl ((e :: es).map (fun q =>
        match q.2 with
        | .scalar v => attrLine 2 q.1 v
        | .map [] => indent 2 ++ q.1 ++ ": \x7b\x7d\n"
        | .map (_ :: _) => indent 2 ++ q.1 ++ ":\n")) (by simp)
      (by
        intro s hs
        obtain ⟨q, _, rfl⟩ := List.mem_map.mp hs
        match hq : q.2 with
        | .scalar v =>
          obtain ⟨mid, hmid⟩ := attrLine_decomp 2 q.1 v
          refine ⟨(indent 2 ++ q.1 ++ ":") ++ mid, ?_⟩
          show attrLine 2 q.1 v = _
          rw [hmid]
          simp only [String.append_assoc]
        | .map [] =>
          refine ⟨indent 2 ++ q.1 ++ ": \x7b\x7d", ?_⟩
          show indent 2 ++ q.1 ++ ": \x7b\x7d\n" = _
          simp only [String.append_assoc]
          rfl
        | .map (e2 :: es2) =>
          refine ⟨indent 2 ++ q.1 ++ ":", ?_⟩
          show indent 2 ++ q.1 ++ ":\n" = _
          simp only [String.append_assoc]
          rfl)
    refine ⟨"\n" ++ r, ?_⟩
    show indent 1 ++ k ++ ":\n" ++ strConcat _ = _
    rw [hr]
    simp only [String.append_assoc]
    rfl

theorem strConcat_block_mem :
    ∀ (ents : List (String × Yaml)) (k : String), k ∈ ents.map (fun p => p.1) →
      ∀ (pre0 : String), (∃ q, pre0 = q ++ "\n") →
      ∃ pre post, pre0 ++ strConcat (ents.map entEntry) = pre ++ "\n  " ++ k ++ ":" ++ post
  | [], k, hk, _, _ => absurd hk (by simp)
  | p :: ps, k, hk, pre0, ⟨q, hq⟩ => by
    rcases List.mem_cons.mp hk with heq | hk2
    · subst heq
      obtain ⟨mid, hmid⟩ := entEntry_decomp p
      refine ⟨q, (mid ++ "\n") ++ strConcat (ps.map entEntry), ?_⟩
      show pre0 ++ (entEntry p ++ strConcat (ps.map entEntry)) = _
      rw [hq, hmid]
      simp only [String.append_assoc]
      rfl
    · obtain ⟨mid, hmid⟩ := entEntry_decomp p
      have hpre : ∃ q2, pre0 ++ entEntry p = q2 ++ "\n" := by
        refine ⟨pre0 ++ (("  " ++ p.1 ++ ":") ++ mid), ?_⟩
        rw [hmid]
        simp only [String.append_assoc]
      obtain ⟨pre, post, hfin⟩ := strConcat_block_mem ps k hk2 (pre0 ++ entEntry p) hpre
      refine ⟨pre, post, ?_⟩
      rw [← hfin]
      show pre0 ++ (entEntry p ++ strConcat (ps.map entEntry)) = _
      rw [String.append_assoc]

/-- Claim C1 as amended: for every scene document the serialized entities
appear with their keys in sorted (code point) order, a permutation of the
insertion-order keys rather than insertion order itself, and the emitted
text is block style: every entity key opens its own line at the entities
indentation level. -/
theorem serialization_sorted_block_style (doc : SceneDoc) :
    List.Perm (entityKeyOrder doc) (keys doc.entities) ∧
    List.Pairwise (fun a b => keyLe a b = true) (entityKeyOrder doc) ∧
    (∀ k ∈ entityKeyOrder doc, ∃ pre post,
      dumpText doc = pre ++ "\n  " ++ k ++ ":" ++ post) := by
  refine ⟨?_, ?_, ?_⟩
  · have hperm := (perm_sortPairs
      (doc.entities.map (fun p => (p.1, projToYamlSorted p.2)))).map
      (fun p : String × Yaml => p.1)
    have hmap : (doc.entities.map (fun p => (p.1, projToYamlSorted p.2))).map
        (fun p : String × Yaml => p.1) = keys doc.entities := by
      rw [List.map_map]
      rfl
    rw [hmap] at hperm
    exact hperm
  · have hs := sorted_sortPairs (doc.entities.map (fun p => (p.1, projToYamlSorted p.2)))
    exact List.Pairwise.map (fun p : String × Yaml => p.1) (fun a b hab => hab) hs
  · intro k hk
    simp only [entityKeyOrder] at hk
    cases hents : sortedEntities doc with
    | nil =>
      rw [hents] at hk
      simp at hk
    | cons e es =>
      rw [hents] at hk
      obtain ⟨pre, post, hdec⟩ := strConcat_block_mem (e :: es) k hk "entities:\n"
        ⟨"entities:", rfl⟩
      refine ⟨pre, post ++ ("name: " ++ doc.name ++ "\n"), ?_⟩
      show dumpEntitiesText (sortedEntities doc) ++ "name: " ++ doc.name ++ "\n" = _
      rw [hents]
      show ("entities:\n" ++ strConcat ((e :: es).map entEntry)) ++
        "name: " ++ doc.name ++ "\n" = _
      rw [hdec]
      simp only [String.append_assoc]

def c1doc : SceneDoc :=
  { name := "nightscene", entities := [("switch.b", .bare "up"), ("switch.a", .bare "down")] }

/-- Claim C1 counterexample: a document whose entities were inserted in
the order switch.b, switch.a serializes with switch.a first: the key order
of the output is sorted order, not insertion order. -/
theorem serialization_key_order_counterexample :
    keys c1doc.entities = ["switch.b", "switch.a"] ∧
    entityKeyOrder c1doc = ["switch.a", "switch.b"] ∧
    entityKeyOrder c1doc ≠ keys c1doc.entities ∧
    dumpText c1doc = "entities:\n  switch.a: down\n  switch.b: up\nname: nightscene\n" :=
  ⟨rfl, rfl, by decide, rfl⟩

def c1wdoc : SceneDoc :=
  { name := "w1", entities := [("switch.wb", .bare "x"), ("switch.wa", .bare "y")] }

theorem serialization_sorted_block_style_witness :
    ("switch.wa" : String) ∈ entityKeyOrder c1wdoc ∧
    (∃ pre post, dumpText c1wdoc = pre ++ "\n  " ++ "switch.wa" ++ ":" ++ post) :=
  ⟨by decide, (serialization_sorted_block_style c1wdoc).2.2 "switch.wa" (by decide)⟩

end Scenegen
